import Mathlib

/-!
Verification of the buried-surface-area (BSA) feature extractor
(`deeprank/features/BSA.py`).

The extractor is shallowly embedded:
* the structure database (`pdb2sql`) appears as an ordered list of atom
  records together with an abstract contact-residue enumerator;
* the surface-area engine (`freesasa`) appears as abstract area functions
  (`asaComplex`, `asaChain`): the per-residue areas returned by
  `freesasa.selectArea` on the complex result and on the isolated-chain
  results;
* Python dictionaries appear as association lists with insert-or-replace
  semantics; Python floats appear as rationals; Python ints as `Int`;
* the fallible steps of the per-residue loop (the `self.chains[res[0]]`
  dictionary access, the hard-coded chain-index table, and the `[0]`
  indexing of the anchor-atom query) return `Except`.
-/

set_option synthInstance.maxSize 512

attribute [local semireducible] Rat.sub Rat.add Rat.mul Rat.inv

deriving instance DecidableEq for Except

/-- An atom record as returned by the structure database query
`name,resName,resSeq,chainID,x,y,z`. -/
structure AtomRecord where
  name : String
  resName : String
  resSeq : Int
  chainID : String
  x : ℚ
  y : ℚ
  z : ℚ
deriving DecidableEq

/-- A contact-residue key `(chainID, resSeq, resName)` as produced by
`get_contact_residues`. -/
structure ResKey where
  chainID : String
  resSeq : Int
  resName : String
deriving DecidableEq

/-- The spatial key `(chain index, x, y, z)` of the xyz-indexed mapping. -/
abbrev XyzKey := Int × ℚ × ℚ × ℚ

/-- Failures of the per-residue loop and of the contact search:
`noInterface` is the `ValueError` raised for an empty contact list (it
carries the cutoff, as the error message does); `keyError` is a Python
`KeyError` from a dictionary access (`self.chains[...]` or the hard-coded
chain-index table); `indexError` is the `IndexError` from indexing `[0]`
into an empty anchor-atom query result. -/
inductive BsaError where
  | noInterface (cutoff : ℚ)
  | keyError (key : String)
  | indexError (res : ResKey)
deriving DecidableEq

/-- Association list with Python-dict assignment semantics: replace the
value at an existing key in place, otherwise append at the end. -/
def dictInsert {α β : Type} [DecidableEq α] (d : List (α × β)) (k : α) (v : β) :
    List (α × β) :=
  match d with
  | [] => [(k, v)]
  | p :: t => if p.1 = k then (k, v) :: t else p :: dictInsert t k v

/-- Dictionary lookup: the value at the first entry with the given key. -/
def dictGet? {α β : Type} [DecidableEq α] (d : List (α × β)) (k : α) : Option β :=
  (d.find? (fun p => p.1 = k)).map (fun p => p.2)

/-- The result of a completed `get_contact_residue_sasa` call: the two BSA
mappings, the exported feature dictionaries, and whether the
sparse-interface warning was emitted. -/
structure FeatureOutput where
  sparseWarning : Bool
  bsa_data : List (ResKey × List ℚ)
  bsa_data_xyz : List (XyzKey × List ℚ)
  feature_data : List (String × List (ResKey × List ℚ))
  feature_data_xyz : List (String × List (XyzKey × List ℚ))
deriving DecidableEq

/-- The BSA calculator after `get_structure` has run: the atom records of
the structure database, the two configured chain labels, the abstract
per-residue area queries on the complex result (`selectArea` with a
`resi … and chain …` selection) and on each isolated-chain result
(`selectArea` with a `resi …` selection on the structure stored under the
given chain label), and the contact-residue enumerator (the two lists
returned by `get_contact_residues` under the keys `"A"` and `"B"`). -/
structure BSA where
  atoms : List AtomRecord
  chainA : String
  chainB : String
  asaComplex : String → Int → ℚ
  asaChain : String → Int → ℚ
  contactResidues : ℚ → List ResKey × List ResKey

/-- The hard-coded chain-index table of the source (a two-entry dict
literal): `'A'` maps to `0`, `'B'` maps to `1`, anything else is a
`KeyError`. -/
def chainIdx? (s : String) : Option Int :=
  if s = "A" then some 0 else if s = "B" then some 1 else none

/-- The anchor-atom name: `CB`, or `CA` for glycine. -/
def anchorName (resName : String) : String :=
  if resName = "GLY" then "CA" else "CB"

/-- The anchor-atom query `sql.get('x,y,z', resSeq=…, chainID=…, name=…)`
followed by the `[0]` indexing: the first matching atom in source order,
if any. -/
def BSA.anchorAtom? (c : BSA) (res : ResKey) : Option AtomRecord :=
  (c.atoms.filter (fun a =>
    a.resSeq = res.resSeq ∧ a.chainID = res.chainID ∧
      a.name = anchorName res.resName)).head?

/-- The BSA scalar of a contact residue: isolated-chain area minus
complex area, exactly as computed (`bsa = asa_unbound - asa_complex`). -/
def BSA.resBsa (c : BSA) (res : ResKey) : ℚ :=
  c.asaChain res.chainID res.resSeq - c.asaComplex res.chainID res.resSeq

/-- One iteration of the contact-residue loop, updating the pair
`(bsa_data, bsa_data_xyz)`.  The failure order follows the source: the
`self.chains[res[0]]` access, then the chain-index table, then the `[0]`
indexing of the anchor query. -/
def BSA.processRes (c : BSA)
    (st : List (ResKey × List ℚ) × List (XyzKey × List ℚ)) (res : ResKey) :
    Except BsaError (List (ResKey × List ℚ) × List (XyzKey × List ℚ)) :=
  if res.chainID = c.chainA ∨ res.chainID = c.chainB then
    match chainIdx? res.chainID with
    | none => .error (.keyError res.chainID)
    | some chain =>
      match c.anchorAtom? res with
      | none => .error (.indexError res)
      | some a =>
        .ok (dictInsert st.1 res [c.resBsa res],
          dictInsert st.2 (chain, a.x, a.y, a.z) [c.resBsa res])
  else .error (.keyError res.chainID)

/-- The merged contact list `ctc_res["A"] + ctc_res["B"]`. -/
def BSA.ctcList (c : BSA) (cutoff : ℚ) : List ResKey :=
  (c.contactResidues cutoff).1 ++ (c.contactResidues cutoff).2

/-- `get_contact_residue_sasa`: enumerate contacts, fail on an empty
interface (carrying the cutoff), warn below five contacts, then run the
per-residue loop; on success export the two mappings under the feature
name `"bsa"`. -/
def BSA.get_contact_residue_sasa (c : BSA) (cutoff : ℚ) :
    Except BsaError FeatureOutput :=
  if (c.ctcList cutoff).length = 0 then .error (.noInterface cutoff)
  else
    match (c.ctcList cutoff).foldlM c.processRes ([], []) with
    | .error e => .error e
    | .ok st =>
      .ok { sparseWarning := decide ((c.ctcList cutoff).length < 5)
            bsa_data := st.1
            bsa_data_xyz := st.2
            feature_data := [("bsa", st.1)]
            feature_data_xyz := [("bsa", st.2)] }

/-- The success condition of one loop iteration: the residue's chain label
is one of the two configured labels, it is in the hard-coded index table,
and the anchor-atom query is nonempty. -/
def BSA.stepOk (c : BSA) (res : ResKey) : Prop :=
  (res.chainID = c.chainA ∨ res.chainID = c.chainB) ∧
    (chainIdx? res.chainID).isSome ∧ (c.anchorAtom? res).isSome

instance (c : BSA) (res : ResKey) : Decidable (c.stepOk res) := by
  unfold BSA.stepOk; infer_instance

/-- The xyz key a contact residue is stored under when its iteration
succeeds (junk value otherwise). -/
def BSA.resXyzKeyD (c : BSA) (res : ResKey) : XyzKey :=
  match chainIdx? res.chainID, c.anchorAtom? res with
  | some i, some a => (i, a.x, a.y, a.z)
  | _, _ => (0, 0, 0, 0)

/-- Folding dictionary insertions of keyed, valued elements. -/
def foldIns {α K V : Type} [DecidableEq K] (κ : α → K) (ν : α → V)
    (d : List (K × V)) (l : List α) : List (K × V) :=
  l.foldl (fun d x => dictInsert d (κ x) (ν x)) d

/-- A run is valid when every contact residue can be processed, the
contact list has no duplicate residue keys, and distinct contact residues
have distinct anchor keys (true of any well-formed structure, where two
atoms never coincide). -/
def BSA.ValidRun (c : BSA) (cutoff : ℚ) : Prop :=
  (∀ res ∈ c.ctcList cutoff, c.stepOk res) ∧ (c.ctcList cutoff).Nodup ∧
    (∀ r1 ∈ c.ctcList cutoff, ∀ r2 ∈ c.ctcList cutoff,
      c.resXyzKeyD r1 = c.resXyzKeyD r2 → r1 = r2)

instance (c : BSA) (cutoff : ℚ) : Decidable (c.ValidRun cutoff) := by
  unfold BSA.ValidRun; infer_instance

/-- A small concrete calculator: two chains with the default labels, five
contact residues (one of them glycine), every anchor present, and a
duplicate anchor-atom record for the first residue (the loop must use the
first one).  The isolated-chain areas of the chain-B residues are smaller
than their complex areas, so their BSA values are negative. -/
def exW : BSA :=
  { atoms := [
      ⟨"CB", "ALA", 1, "A", 1, 1, 1⟩,
      ⟨"CB", "ALA", 1, "A", 9, 9, 9⟩,
      ⟨"CA", "GLY", 2, "A", 2, 2, 2⟩,
      ⟨"CB", "SER", 3, "A", 3, 3, 3⟩,
      ⟨"CB", "LEU", 1, "B", 4, 4, 4⟩,
      ⟨"CB", "VAL", 2, "B", 5, 5, 5⟩]
    chainA := "A"
    chainB := "B"
    asaComplex := fun ch n => if ch = "A" then (n : ℚ) else (n : ℚ) + 10
    asaChain := fun _ n => 2 * (n : ℚ)
    contactResidues := fun _ =>
      ([⟨"A", 1, "ALA"⟩, ⟨"A", 2, "GLY"⟩, ⟨"A", 3, "SER"⟩],
       [⟨"B", 1, "LEU"⟩, ⟨"B", 2, "VAL"⟩]) }

/-- The output `exW` produces at the default cutoff. -/
def exOut : FeatureOutput :=
  { sparseWarning := false
    bsa_data := [(⟨"A", 1, "ALA"⟩, [1]), (⟨"A", 2, "GLY"⟩, [2]),
      (⟨"A", 3, "SER"⟩, [3]), (⟨"B", 1, "LEU"⟩, [-9]), (⟨"B", 2, "VAL"⟩, [-8])]
    bsa_data_xyz := [((0, 1, 1, 1), [1]), ((0, 2, 2, 2), [2]),
      ((0, 3, 3, 3), [3]), ((1, 4, 4, 4), [-9]), ((1, 5, 5, 5), [-8])]
    feature_data := [("bsa", [(⟨"A", 1, "ALA"⟩, [1]), (⟨"A", 2, "GLY"⟩, [2]),
      (⟨"A", 3, "SER"⟩, [3]), (⟨"B", 1, "LEU"⟩, [-9]), (⟨"B", 2, "VAL"⟩, [-8])])]
    feature_data_xyz := [("bsa", [((0, 1, 1, 1), [1]), ((0, 2, 2, 2), [2]),
      ((0, 3, 3, 3), [3]), ((1, 4, 4, 4), [-9]), ((1, 5, 5, 5), [-8])])] }

/-! ### `get_structure`: the atom sets handed to the surface-area engine -/

/-- An atom as handed to `freesasa.Structure.addAtom`: the (padded) atom
name field, residue name, residue number, chain label and position. -/
structure EngineAtom where
  atomName : String
  resName : String
  resSeq : Int
  chainID : String
  x : ℚ
  y : ℚ
  z : ℚ
deriving DecidableEq

/-- The atom sets built by `get_structure`: the complex structure (atoms
added one by one only when the pdb data is not a file name; for a file
name the engine parses the file itself and no atom is added by this code)
and one structure per configured chain label. -/
structure StructureSets where
  complexAdded : List EngineAtom
  chains : List (String × List EngineAtom)
deriving DecidableEq

/-- Python `'\x7b:>2\x7d'.format(s)`: right-align in a two-column field,
padding on the left with spaces. -/
def fmtRightAlign2 (s : String) : String :=
  if s.length < 2 then String.mk (List.replicate (2 - s.length) ' ') ++ s
  else s

/-- Python `s[0]` (as a one-character string, for nonempty `s`). -/
def pyFirstChar (s : String) : String :=
  String.mk (s.data.take 1)

/-- One `addAtom` call: the atom-name field is the first character of the
atom name formatted into two columns (`atomName = '\x7b:>2\x7d'.format(atomName[0])`);
the other fields are passed through. -/
def mkEngineAtom (a : AtomRecord) : EngineAtom :=
  { atomName := fmtRightAlign2 (pyFirstChar a.name)
    resName := a.resName
    resSeq := a.resSeq
    chainID := a.chainID
    x := a.x
    y := a.y
    z := a.z }

/-- `get_structure`: build the complex atom set (only in the in-memory
branch; a file name is parsed by the engine directly) and, for each
configured chain label, the isolated-chain atom set from the atoms of that
chain, in source order. -/
def get_structure (pdbIsStr : Bool) (atoms : List AtomRecord)
    (chainsLabel : List String) : StructureSets :=
  { complexAdded := if pdbIsStr then [] else atoms.map mkEngineAtom
    chains := chainsLabel.map (fun label =>
      (label, (atoms.filter (fun a => a.chainID = label)).map mkEngineAtom)) }

/-! ### Further concrete calculators for instance checks -/

/-- A calculator whose contact search finds nothing. -/
def noContactW : BSA :=
  { atoms := []
    chainA := "A"
    chainB := "B"
    asaComplex := fun _ _ => 0
    asaChain := fun _ _ => 0
    contactResidues := fun _ => ([], []) }

/-- `exW` with only three contact residues: a sparse interface. -/
def ex3W : BSA :=
  { exW with contactResidues := fun _ =>
      ([⟨"A", 1, "ALA"⟩, ⟨"A", 2, "GLY"⟩], [⟨"B", 1, "LEU"⟩]) }

/-- A calculator configured with the chain labels swapped:
`chainA = "B"`, `chainB = "A"`.  The structure still carries chains
labelled `A` and `B` and the contact search still reports them under the
keys `"A"` and `"B"`. -/
def swapW : BSA :=
  { atoms := [⟨"CB", "ALA", 1, "A", 1, 1, 1⟩, ⟨"CB", "LEU", 1, "B", 4, 4, 4⟩]
    chainA := "B"
    chainB := "A"
    asaComplex := fun _ _ => 1
    asaChain := fun _ _ => 3
    contactResidues := fun _ => ([⟨"A", 1, "ALA"⟩], [⟨"B", 1, "LEU"⟩]) }

/-- The output `swapW` produces at the default cutoff. -/
def swapOut : FeatureOutput :=
  { sparseWarning := true
    bsa_data := [(⟨"A", 1, "ALA"⟩, [2]), (⟨"B", 1, "LEU"⟩, [2])]
    bsa_data_xyz := [((0, 1, 1, 1), [2]), ((1, 4, 4, 4), [2])]
    feature_data := [("bsa", [(⟨"A", 1, "ALA"⟩, [2]), (⟨"B", 1, "LEU"⟩, [2])])]
    feature_data_xyz := [("bsa", [((0, 1, 1, 1), [2]), ((1, 4, 4, 4), [2])])] }

/-- The single-atom record list used for the structure-building check. -/
def c8atoms : List AtomRecord :=
  [⟨"N", "ALA", 1, "A", 0, 0, 0⟩]

/-! ### Association-list dictionary lemmas -/

theorem dictGet?_nil {α β : Type} [DecidableEq α] (k : α) :
    dictGet? ([] : List (α × β)) k = none := rfl

theorem dictGet?_cons {α β : Type} [DecidableEq α]
    (p : α × β) (t : List (α × β)) (k : α) :
    dictGet? (p :: t) k = if p.1 = k then some p.2 else dictGet? t k := by
  by_cases h : p.1 = k
  · simp [dictGet?, List.find?_cons_of_pos, h]
  · simp [dictGet?, List.find?_cons_of_neg, h]

theorem dictGet?_insert_self {α β : Type} [DecidableEq α]
    (d : List (α × β)) (k : α) (v : β) :
    dictGet? (dictInsert d k v) k = some v := by
  induction d with
  | nil => simp [dictInsert, dictGet?_cons]
  | cons p t ih =>
    by_cases h : p.1 = k
    · simp [dictInsert, h, dictGet?_cons]
    · rw [dictInsert, if_neg h]
      rw [dictGet?_cons, if_neg h]
      exact ih

theorem dictGet?_insert_ne {α β : Type} [DecidableEq α]
    (d : List (α × β)) (k k' : α) (v : β) (h : k' ≠ k) :
    dictGet? (dictInsert d k v) k' = dictGet? d k' := by
  have hne : ¬ (k = k') := fun hh => h hh.symm
  induction d with
  | nil => simp [dictInsert, dictGet?_cons, dictGet?_nil, hne]
  | cons p t ih =>
    by_cases hp : p.1 = k
    · rw [dictInsert, if_pos hp, dictGet?_cons, dictGet?_cons, hp]
      simp [hne]
    · rw [dictInsert, if_neg hp, dictGet?_cons, dictGet?_cons]
      rw [ih]

theorem length_dictInsert_of_none {α β : Type} [DecidableEq α]
    (d : List (α × β)) (k : α) (v : β) (h : dictGet? d k = none) :
    (dictInsert d k v).length = d.length + 1 := by
  induction d with
  | nil => simp [dictInsert]
  | cons p t ih =>
    rw [dictGet?_cons] at h
    by_cases hp : p.1 = k
    · rw [if_pos hp] at h
      exact absurd h (by simp)
    · rw [if_neg hp] at h
      rw [dictInsert, if_neg hp, List.length_cons, List.length_cons, ih h]

theorem isSome_dictGet?_insert {α β : Type} [DecidableEq α]
    (d : List (α × β)) (k k' : α) (v : β) (h : (dictGet? d k).isSome) :
    (dictGet? (dictInsert d k' v) k).isSome := by
  by_cases hk : k = k'
  · subst hk; simp [dictGet?_insert_self]
  · rwa [dictGet?_insert_ne _ _ _ _ hk]

theorem mem_dictInsert_val {α β : Type} [DecidableEq α]
    (d : List (α × β)) (k : α) (v : β) (P : β → Prop)
    (hd : ∀ p ∈ d, P p.2) (hv : P v) :
    ∀ p ∈ dictInsert d k v, P p.2 := by
  induction d with
  | nil => simpa [dictInsert] using hv
  | cons q t ih =>
    by_cases hq : q.1 = k
    · rw [dictInsert, if_pos hq]
      intro p hp
      rcases List.mem_cons.mp hp with h | h
      · subst h; exact hv
      · exact hd p (List.mem_cons_of_mem _ h)
    · rw [dictInsert, if_neg hq]
      intro p hp
      rcases List.mem_cons.mp hp with h | h
      · subst h; exact hd p (List.mem_cons_self _ _)
      · exact ih (fun p hp => hd p (List.mem_cons_of_mem _ hp)) p h

/-- The head of a filtered list is the first element of the original list
satisfying the predicate. -/
theorem head?_filter_eq_some {α : Type} {p : α → Bool} {l : List α} {a : α}
    (h : (l.filter p).head? = some a) :
    ∃ l1 l2, l = l1 ++ a :: l2 ∧ p a = true ∧ ∀ b ∈ l1, p b = false := by
  induction l with
  | nil => simp [List.filter] at h
  | cons x t ih =>
    by_cases hx : p x
    · rw [List.filter_cons_of_pos hx] at h
      simp only [List.head?_cons, Option.some.injEq] at h
      subst h
      exact ⟨[], t, by simp, hx, by simp⟩
    · rw [List.filter_cons_of_neg (by simpa using hx)] at h
      obtain ⟨l1, l2, hl, hpa, hneg⟩ := ih h
      refine ⟨x :: l1, l2, by simp [hl], hpa, ?_⟩
      intro b hb
      rcases List.mem_cons.mp hb with hb | hb
      · subst hb; simpa using hx
      · exact hneg b hb

/-! ### Lemmas about folding dictionary insertions -/

theorem foldIns_nil {α K V : Type} [DecidableEq K] (κ : α → K) (ν : α → V)
    (d : List (K × V)) : foldIns κ ν d [] = d := rfl

theorem foldIns_cons {α K V : Type} [DecidableEq K] (κ : α → K) (ν : α → V)
    (d : List (K × V)) (x : α) (l : List α) :
    foldIns κ ν d (x :: l) = foldIns κ ν (dictInsert d (κ x) (ν x)) l := rfl

theorem foldIns_get_stable {α K V : Type} [DecidableEq K]
    {κ : α → K} {ν : α → V} {l : List α} {k : K} {v : V}
    (h : ∀ y ∈ l, κ y = k → ν y = v) :
    ∀ d, dictGet? d k = some v → dictGet? (foldIns κ ν d l) k = some v := by
  induction l with
  | nil => intro d hd; simpa [foldIns_nil] using hd
  | cons y t ih =>
    intro d hd
    rw [foldIns_cons]
    by_cases hy : κ y = k
    · have hv : ν y = v := h y (List.mem_cons_self _ _) hy
      refine ih (fun z hz => h z (List.mem_cons_of_mem _ hz)) _ ?_
      rw [hy, hv] at *
      exact dictGet?_insert_self d k v
    · refine ih (fun z hz => h z (List.mem_cons_of_mem _ hz)) _ ?_
      rwa [dictGet?_insert_ne _ _ _ _ (fun hh => hy hh.symm)]

theorem foldIns_get_mem {α K V : Type} [DecidableEq K]
    {κ : α → K} {ν : α → V} {l : List α} {x : α}
    (hx : x ∈ l) (h : ∀ y ∈ l, κ y = κ x → ν y = ν x) :
    ∀ d, dictGet? (foldIns κ ν d l) (κ x) = some (ν x) := by
  induction l with
  | nil => exact absurd hx (List.not_mem_nil x)
  | cons y t ih =>
    intro d
    rw [foldIns_cons]
    rcases List.mem_cons.mp hx with hxy | hxt
    · subst hxy
      exact foldIns_get_stable (fun z hz => h z (List.mem_cons_of_mem _ hz)) _
        (dictGet?_insert_self d (κ x) (ν x))
    · exact ih hxt (fun z hz => h z (List.mem_cons_of_mem _ hz)) _

theorem foldIns_isSome_stable {α K V : Type} [DecidableEq K]
    (κ : α → K) (ν : α → V) (l : List α) (k : K) :
    ∀ d, (dictGet? d k).isSome → (dictGet? (foldIns κ ν d l) k).isSome := by
  induction l with
  | nil => intro d hd; simpa [foldIns_nil] using hd
  | cons y t ih =>
    intro d hd
    rw [foldIns_cons]
    exact ih _ (isSome_dictGet?_insert _ _ _ _ hd)

theorem foldIns_isSome_of_mem {α K V : Type} [DecidableEq K]
    (κ : α → K) (ν : α → V) {l : List α} {x : α} (hx : x ∈ l) :
    ∀ d, (dictGet? (foldIns κ ν d l) (κ x)).isSome := by
  induction l with
  | nil => exact absurd hx (List.not_mem_nil x)
  | cons y t ih =>
    intro d
    rw [foldIns_cons]
    rcases List.mem_cons.mp hx with hxy | hxt
    · subst hxy
      exact foldIns_isSome_stable _ _ _ _ _
        (by rw [dictGet?_insert_self]; rfl)
    · exact ih hxt _

theorem foldIns_length_nodup {α K V : Type} [DecidableEq K]
    (κ : α → K) (ν : α → V) {l : List α} (hnd : (l.map κ).Nodup) :
    ∀ d, (∀ x ∈ l, dictGet? d (κ x) = none) →
      (foldIns κ ν d l).length = d.length + l.length := by
  induction l with
  | nil => intro d _; simp [foldIns_nil]
  | cons y t ih =>
    intro d habs
    rw [List.map_cons, List.nodup_cons] at hnd
    rw [foldIns_cons]
    have hlen : (dictInsert d (κ y) (ν y)).length = d.length + 1 :=
      length_dictInsert_of_none _ _ _ (habs y (List.mem_cons_self _ _))
    have habs' : ∀ x ∈ t, dictGet? (dictInsert d (κ y) (ν y)) (κ x) = none := by
      intro x hx
      have hne : κ x ≠ κ y := by
        intro hh
        exact hnd.1 (hh ▸ List.mem_map_of_mem κ hx)
      rw [dictGet?_insert_ne _ _ _ _ hne]
      exact habs x (List.mem_cons_of_mem _ hx)
    rw [ih hnd.2 _ habs', hlen, List.length_cons]
    omega

theorem foldIns_val_mem {α K V : Type} [DecidableEq K]
    (κ : α → K) (ν : α → V) (l : List α) (P : V → Prop)
    (hl : ∀ x ∈ l, P (ν x)) :
    ∀ d, (∀ p ∈ d, P p.2) → ∀ p ∈ foldIns κ ν d l, P p.2 := by
  induction l with
  | nil => intro d hd; simpa [foldIns_nil] using hd
  | cons y t ih =>
    intro d hd
    rw [foldIns_cons]
    exact ih (fun x hx => hl x (List.mem_cons_of_mem _ hx)) _
      (mem_dictInsert_val _ _ _ _ hd (hl y (List.mem_cons_self _ _)))

/-! ### The per-residue loop as pure dictionary folds -/

theorem BSA.processRes_eq_ok (c : BSA)
    (st : List (ResKey × List ℚ) × List (XyzKey × List ℚ)) (res : ResKey)
    (h : c.stepOk res) :
    c.processRes st res = .ok (dictInsert st.1 res [c.resBsa res],
      dictInsert st.2 (c.resXyzKeyD res) [c.resBsa res]) := by
  obtain ⟨h1, h2, h3⟩ := h
  obtain ⟨i, hi⟩ := Option.isSome_iff_exists.mp h2
  obtain ⟨a, ha⟩ := Option.isSome_iff_exists.mp h3
  unfold BSA.processRes BSA.resXyzKeyD
  rw [if_pos h1, hi, ha]

theorem BSA.processRes_eq_error (c : BSA)
    (st : List (ResKey × List ℚ) × List (XyzKey × List ℚ)) (res : ResKey)
    (h : ¬ c.stepOk res) :
    ∃ e, c.processRes st res = .error e := by
  unfold BSA.stepOk at h
  by_cases h1 : res.chainID = c.chainA ∨ res.chainID = c.chainB
  · by_cases h2 : (chainIdx? res.chainID).isSome
    · by_cases h3 : (c.anchorAtom? res).isSome
      · exact absurd ⟨h1, h2, h3⟩ h
      · obtain ⟨i, hi⟩ := Option.isSome_iff_exists.mp h2
        refine ⟨.indexError res, ?_⟩
        unfold BSA.processRes
        rw [if_pos h1, hi, Option.not_isSome_iff_eq_none.mp h3]
    · refine ⟨.keyError res.chainID, ?_⟩
      unfold BSA.processRes
      rw [if_pos h1, Option.not_isSome_iff_eq_none.mp h2]
  · exact ⟨.keyError res.chainID, by unfold BSA.processRes; rw [if_neg h1]⟩

theorem BSA.foldlM_ok_of_all (c : BSA) (l : List ResKey)
    (h : ∀ res ∈ l, c.stepOk res) :
    ∀ d dx, l.foldlM c.processRes (d, dx) =
      .ok (foldIns (fun r => r) (fun r => [c.resBsa r]) d l,
        foldIns c.resXyzKeyD (fun r => [c.resBsa r]) dx l) := by
  induction l with
  | nil => intro d dx; rfl
  | cons y t ih =>
    intro d dx
    rw [List.foldlM_cons, c.processRes_eq_ok (d, dx) y (h y (List.mem_cons_self _ _))]
    rw [foldIns_cons, foldIns_cons]
    exact ih (fun res hres => h res (List.mem_cons_of_mem _ hres)) _ _

theorem BSA.foldlM_error_of_bad (c : BSA) (l : List ResKey)
    (h : ∃ res ∈ l, ¬ c.stepOk res) :
    ∀ st, ∃ e, l.foldlM c.processRes st = .error e := by
  induction l with
  | nil => obtain ⟨res, hres, _⟩ := h; exact absurd hres (List.not_mem_nil res)
  | cons y t ih =>
    intro st
    by_cases hy : c.stepOk y
    · have hbad : ∃ res ∈ t, ¬ c.stepOk res := by
        obtain ⟨res, hres, hnot⟩ := h
        rcases List.mem_cons.mp hres with hh | hh
        · exact absurd (hh ▸ hy) hnot
        · exact ⟨res, hh, hnot⟩
      obtain ⟨e, he⟩ := ih hbad (dictInsert st.1 y [c.resBsa y],
        dictInsert st.2 (c.resXyzKeyD y) [c.resBsa y])
      refine ⟨e, ?_⟩
      rw [List.foldlM_cons, c.processRes_eq_ok st y hy]
      exact he
    · obtain ⟨e, he⟩ := c.processRes_eq_error st y hy
      refine ⟨e, ?_⟩
      rw [List.foldlM_cons, he]
      rfl

/-- Inversion of a successful run: every contact residue was processable
and the output is exactly the pair of dictionary folds over the contact
list, exported under the feature name `"bsa"`. -/
theorem BSA.sasa_ok_inv (c : BSA) (cutoff : ℚ) (out : FeatureOutput)
    (hok : c.get_contact_residue_sasa cutoff = .ok out) :
    (∀ res ∈ c.ctcList cutoff, c.stepOk res) ∧
    out.bsa_data = foldIns (fun r => r) (fun r => [c.resBsa r]) []
      (c.ctcList cutoff) ∧
    out.bsa_data_xyz = foldIns c.resXyzKeyD (fun r => [c.resBsa r]) []
      (c.ctcList cutoff) ∧
    out.sparseWarning = decide ((c.ctcList cutoff).length < 5) ∧
    out.feature_data = [("bsa", out.bsa_data)] ∧
    out.feature_data_xyz = [("bsa", out.bsa_data_xyz)] := by
  have hall : ∀ res ∈ c.ctcList cutoff, c.stepOk res := by
    by_contra hbad
    push_neg at hbad
    obtain ⟨res, hres, hnot⟩ := hbad
    obtain ⟨e, he⟩ := c.foldlM_error_of_bad _ ⟨res, hres, hnot⟩ ([], [])
    unfold BSA.get_contact_residue_sasa at hok
    by_cases h0 : (c.ctcList cutoff).length = 0
    · rw [if_pos h0] at hok
      exact absurd hok (by simp)
    · rw [if_neg h0, he] at hok
      exact absurd hok (by simp)
  refine ⟨hall, ?_⟩
  unfold BSA.get_contact_residue_sasa at hok
  by_cases h0 : (c.ctcList cutoff).length = 0
  · rw [if_pos h0] at hok
    exact absurd hok (by simp)
  · rw [if_neg h0, c.foldlM_ok_of_all _ hall [] []] at hok
    simp only [Except.ok.injEq] at hok
    subst hok
    exact ⟨rfl, rfl, rfl, rfl, rfl⟩

/-- A valid nonempty run succeeds and its output is the pair of folds. -/
theorem BSA.run_of_all_ok (c : BSA) (cutoff : ℚ)
    (hall : ∀ res ∈ c.ctcList cutoff, c.stepOk res)
    (h0 : ¬ (c.ctcList cutoff).length = 0) :
    c.get_contact_residue_sasa cutoff = .ok
      { sparseWarning := decide ((c.ctcList cutoff).length < 5)
        bsa_data := foldIns (fun r => r) (fun r => [c.resBsa r]) []
          (c.ctcList cutoff)
        bsa_data_xyz := foldIns c.resXyzKeyD (fun r => [c.resBsa r]) []
          (c.ctcList cutoff)
        feature_data := [("bsa", foldIns (fun r => r) (fun r => [c.resBsa r]) []
          (c.ctcList cutoff))]
        feature_data_xyz := [("bsa", foldIns c.resXyzKeyD (fun r => [c.resBsa r])
          [] (c.ctcList cutoff))] } := by
  unfold BSA.get_contact_residue_sasa
  rw [if_neg h0, c.foldlM_ok_of_all _ hall [] []]

/-! ### The claims -/

/-- C1: for every contact residue processed by `get_contact_residue_sasa`,
the recorded BSA value is exactly the isolated-chain SASA minus the
complex SASA, stored unmodified (no clamping) in both output mappings —
in particular a negative difference is stored as is. -/
theorem BSA.bsa_value_unclamped (c : BSA) (cutoff : ℚ) (out : FeatureOutput)
    (res : ResKey)
    (hok : c.get_contact_residue_sasa cutoff = .ok out)
    (hres : res ∈ c.ctcList cutoff)
    (hinj : ∀ r1 ∈ c.ctcList cutoff, ∀ r2 ∈ c.ctcList cutoff,
      c.resXyzKeyD r1 = c.resXyzKeyD r2 → r1 = r2) :
    dictGet? out.bsa_data res =
      some [c.asaChain res.chainID res.resSeq -
        c.asaComplex res.chainID res.resSeq] ∧
    dictGet? out.bsa_data_xyz (c.resXyzKeyD res) =
      some [c.asaChain res.chainID res.resSeq -
        c.asaComplex res.chainID res.resSeq] := by
  obtain ⟨hall, hbd, hbx, _, _, _⟩ := c.sasa_ok_inv cutoff out hok
  constructor
  · rw [hbd]
    exact foldIns_get_mem hres (fun y _ hy => by rw [hy]) []
  · rw [hbx]
    exact foldIns_get_mem hres
      (fun y hy hk => by rw [hinj y hy res hres hk]) []

/-- C1 instance: in `exW`, the chain-B residue 1 has isolated area 2 and
complex area 11, so the stored value is the negative difference. -/
theorem BSA.bsa_value_unclamped_instance :
    dictGet? exOut.bsa_data ⟨"B", 1, "LEU"⟩ = some [(-9 : ℚ)] ∧
    dictGet? exOut.bsa_data_xyz (1, 4, 4, 4) = some [(-9 : ℚ)] ∧
    (-9 : ℚ) < 0 := by
  have h := BSA.bsa_value_unclamped exW (11/2) exOut ⟨"B", 1, "LEU"⟩
    (by decide) (by decide) (by decide)
  have hk : exW.resXyzKeyD ⟨"B", 1, "LEU"⟩ = (1, 4, 4, 4) := by decide
  refine ⟨?_, ?_, by norm_num⟩
  · rw [h.1]; decide
  · rw [← hk, h.2]; decide

/-- C3: with zero contact residues at the given cutoff the computation
raises the no-interface error carrying that cutoff, and produces no
output. -/
theorem BSA.no_interface_raises (c : BSA) (cutoff : ℚ)
    (h : c.ctcList cutoff = []) :
    c.get_contact_residue_sasa cutoff = .error (.noInterface cutoff) := by
  unfold BSA.get_contact_residue_sasa
  rw [h]
  rfl

/-- C3 instance: an empty contact list at cutoff `0.1` yields the error
carrying `0.1`. -/
theorem BSA.no_interface_raises_instance :
    noContactW.get_contact_residue_sasa (1/10) =
      .error (.noInterface (1/10)) :=
  BSA.no_interface_raises noContactW (1/10) rfl

/-- C9: for every contact residue the residue-key mapping and the
anchor-key mapping hold the same value. -/
theorem BSA.residue_xyz_values_agree (c : BSA) (cutoff : ℚ)
    (out : FeatureOutput) (res : ResKey)
    (hok : c.get_contact_residue_sasa cutoff = .ok out)
    (hres : res ∈ c.ctcList cutoff)
    (hinj : ∀ r1 ∈ c.ctcList cutoff, ∀ r2 ∈ c.ctcList cutoff,
      c.resXyzKeyD r1 = c.resXyzKeyD r2 → r1 = r2) :
    dictGet? out.bsa_data res = dictGet? out.bsa_data_xyz (c.resXyzKeyD res) := by
  obtain ⟨hall, hbd, hbx, _, _, _⟩ := c.sasa_ok_inv cutoff out hok
  rw [hbd, hbx, foldIns_get_mem hres (fun y _ hy => by rw [hy]) [],
    foldIns_get_mem hres (fun y hy hk => by rw [hinj y hy res hres hk]) []]

/-- C9 instance: the glycine contact residue of `exW` has the same value
under both indices. -/
theorem BSA.residue_xyz_values_agree_instance :
    dictGet? exOut.bsa_data ⟨"A", 2, "GLY"⟩ =
      dictGet? exOut.bsa_data_xyz (exW.resXyzKeyD ⟨"A", 2, "GLY"⟩) ∧
    dictGet? exOut.bsa_data ⟨"A", 2, "GLY"⟩ = some [(2 : ℚ)] := by
  have h := BSA.residue_xyz_values_agree exW (11/2) exOut ⟨"A", 2, "GLY"⟩
    (by decide) (by decide) (by decide)
  exact ⟨h, by decide⟩

/-- C10: every value of both mappings is a one-element list holding the
BSA scalar, and the exported feature dictionaries hold exactly those
mappings under the name `"bsa"`. -/
theorem BSA.values_singleton (c : BSA) (cutoff : ℚ) (out : FeatureOutput)
    (hok : c.get_contact_residue_sasa cutoff = .ok out) :
    (∀ p ∈ out.bsa_data, ∃ b, p.2 = [b]) ∧
    (∀ p ∈ out.bsa_data_xyz, ∃ b, p.2 = [b]) ∧
    out.feature_data = [("bsa", out.bsa_data)] ∧
    out.feature_data_xyz = [("bsa", out.bsa_data_xyz)] := by
  obtain ⟨hall, hbd, hbx, _, hf, hfx⟩ := c.sasa_ok_inv cutoff out hok
  refine ⟨?_, ?_, hf, hfx⟩
  · rw [hbd]
    exact foldIns_val_mem _ _ _ (fun v => ∃ b, v = [b])
      (fun x _ => ⟨c.resBsa x, rfl⟩) [] (by simp)
  · rw [hbx]
    exact foldIns_val_mem _ _ _ (fun v => ∃ b, v = [b])
      (fun x _ => ⟨c.resBsa x, rfl⟩) [] (by simp)

/-- C10 instance: the shape invariant on the concrete output `exOut`. -/
theorem BSA.values_singleton_instance :
    (∀ p ∈ exOut.bsa_data, ∃ b, p.2 = [b]) ∧
    (∀ p ∈ exOut.bsa_data_xyz, ∃ b, p.2 = [b]) ∧
    exOut.feature_data = [("bsa", exOut.bsa_data)] ∧
    exOut.feature_data_xyz = [("bsa", exOut.bsa_data_xyz)] :=
  BSA.values_singleton exW (11/2) exOut (by decide)

/-- C2: on a valid structure with at least five contact residues the run
succeeds and each output mapping has exactly one entry per contact
residue: the entry counts equal the contact count and every contact
residue is present. -/
theorem BSA.mappings_complete (c : BSA) (cutoff : ℚ)
    (hval : c.ValidRun cutoff)
    (h5 : 5 ≤ (c.ctcList cutoff).length) :
    ∃ out, c.get_contact_residue_sasa cutoff = .ok out ∧
      out.bsa_data.length = (c.ctcList cutoff).length ∧
      out.bsa_data_xyz.length = (c.ctcList cutoff).length ∧
      ∀ res ∈ c.ctcList cutoff, (dictGet? out.bsa_data res).isSome ∧
        (dictGet? out.bsa_data_xyz (c.resXyzKeyD res)).isSome := by
  obtain ⟨hall, hnd, hinj⟩ := hval
  refine ⟨_, c.run_of_all_ok cutoff hall (by omega), ?_, ?_, ?_⟩
  · have := foldIns_length_nodup (fun r => r) (fun r => [c.resBsa r])
      (by simpa [List.map_id'] using hnd) [] (fun x _ => rfl)
    simpa using this
  · have hmapnd : ((c.ctcList cutoff).map c.resXyzKeyD).Nodup :=
      List.Nodup.map_on hinj hnd
    have := foldIns_length_nodup c.resXyzKeyD (fun r => [c.resBsa r])
      hmapnd [] (fun x _ => rfl)
    simpa using this
  · intro res hres
    exact ⟨foldIns_isSome_of_mem _ _ hres [], foldIns_isSome_of_mem _ _ hres []⟩

/-- C2 instance: `exW` has five contact residues and its run populates
five entries in each mapping. -/
theorem BSA.mappings_complete_instance :
    ∃ out, exW.get_contact_residue_sasa (11/2) = .ok out ∧
      out.bsa_data.length = (exW.ctcList (11/2)).length ∧
      out.bsa_data_xyz.length = (exW.ctcList (11/2)).length ∧
      ∀ res ∈ exW.ctcList (11/2), (dictGet? out.bsa_data res).isSome ∧
        (dictGet? out.bsa_data_xyz (exW.resXyzKeyD res)).isSome :=
  BSA.mappings_complete exW (11/2) (by decide) (by decide)

/-- C7: with between one and four contact residues the run warns about the
sparse interface but completes, populating one entry per contact residue
in each mapping. -/
theorem BSA.sparse_interface_warns (c : BSA) (cutoff : ℚ)
    (hval : c.ValidRun cutoff)
    (h1 : 1 ≤ (c.ctcList cutoff).length)
    (h5 : (c.ctcList cutoff).length < 5) :
    ∃ out, c.get_contact_residue_sasa cutoff = .ok out ∧
      out.sparseWarning = true ∧
      out.bsa_data.length = (c.ctcList cutoff).length ∧
      out.bsa_data_xyz.length = (c.ctcList cutoff).length ∧
      ∀ res ∈ c.ctcList cutoff, (dictGet? out.bsa_data res).isSome ∧
        (dictGet? out.bsa_data_xyz (c.resXyzKeyD res)).isSome := by
  obtain ⟨hall, hnd, hinj⟩ := hval
  refine ⟨_, c.run_of_all_ok cutoff hall (by omega), by simpa using h5, ?_, ?_, ?_⟩
  · have := foldIns_length_nodup (fun r => r) (fun r => [c.resBsa r])
      (by simpa [List.map_id'] using hnd) [] (fun x _ => rfl)
    simpa using this
  · have hmapnd : ((c.ctcList cutoff).map c.resXyzKeyD).Nodup :=
      List.Nodup.map_on hinj hnd
    have := foldIns_length_nodup c.resXyzKeyD (fun r => [c.resBsa r])
      hmapnd [] (fun x _ => rfl)
    simpa using this
  · intro res hres
    exact ⟨foldIns_isSome_of_mem _ _ hres [], foldIns_isSome_of_mem _ _ hres []⟩

/-- C7 instance: `ex3W` has exactly three contact residues; the run warns
and still populates three entries per mapping. -/
theorem BSA.sparse_interface_warns_instance :
    ∃ out, ex3W.get_contact_residue_sasa (11/2) = .ok out ∧
      out.sparseWarning = true ∧
      out.bsa_data.length = (ex3W.ctcList (11/2)).length ∧
      out.bsa_data_xyz.length = (ex3W.ctcList (11/2)).length ∧
      ∀ res ∈ ex3W.ctcList (11/2), (dictGet? out.bsa_data res).isSome ∧
        (dictGet? out.bsa_data_xyz (ex3W.resXyzKeyD res)).isSome :=
  BSA.sparse_interface_warns ex3W (11/2) (by decide) (by decide) (by decide)

/-- C4: the computation never leaves a partial result: either it returns
an error and no output exists, or it succeeds with both mappings populated
for every contact residue and exported under `"bsa"`.  Moreover a missing
anchor atom for any contact residue forces the error branch. -/
theorem BSA.output_all_or_nothing (c : BSA) (cutoff : ℚ) :
    ((∃ e, c.get_contact_residue_sasa cutoff = .error e) ∨
      (∃ out, c.get_contact_residue_sasa cutoff = .ok out ∧
        (∀ res ∈ c.ctcList cutoff, (dictGet? out.bsa_data res).isSome ∧
          (dictGet? out.bsa_data_xyz (c.resXyzKeyD res)).isSome) ∧
        dictGet? out.feature_data "bsa" = some out.bsa_data ∧
        dictGet? out.feature_data_xyz "bsa" = some out.bsa_data_xyz)) ∧
    ((∃ res ∈ c.ctcList cutoff, ¬ (c.anchorAtom? res).isSome) →
      ∃ e, c.get_contact_residue_sasa cutoff = .error e) := by
  constructor
  · cases hres : c.get_contact_residue_sasa cutoff with
    | error e => exact Or.inl ⟨e, rfl⟩
    | ok out =>
      right
      obtain ⟨hall, hbd, hbx, _, hf, hfx⟩ := c.sasa_ok_inv cutoff out hres
      refine ⟨out, rfl, ?_, ?_, ?_⟩
      · intro res hmem
        constructor
        · rw [hbd]; exact foldIns_isSome_of_mem _ _ hmem []
        · rw [hbx]; exact foldIns_isSome_of_mem _ _ hmem []
      · rw [hf, dictGet?_cons]; simp
      · rw [hfx, dictGet?_cons]; simp
  · rintro ⟨res, hres, hanchor⟩
    unfold BSA.get_contact_residue_sasa
    by_cases h0 : (c.ctcList cutoff).length = 0
    · exact ⟨.noInterface cutoff, by rw [if_pos h0]⟩
    · obtain ⟨e, he⟩ := c.foldlM_error_of_bad _
        ⟨res, hres, fun hstep => hanchor hstep.2.2⟩ ([], [])
      exact ⟨e, by rw [if_neg h0, he]⟩

/-- C5: for every contact residue of a successful run, the anchor atom is
the first atom record in source order whose residue number and chain match
the residue and whose name is `CB` — or `CA` when the residue is glycine —
and the xyz key is built from that atom's coordinates. -/
theorem BSA.anchor_first_match (c : BSA) (cutoff : ℚ) (out : FeatureOutput)
    (res : ResKey)
    (hok : c.get_contact_residue_sasa cutoff = .ok out)
    (hres : res ∈ c.ctcList cutoff) :
    ∃ l1 a l2, c.atoms = l1 ++ a :: l2 ∧
      a.resSeq = res.resSeq ∧ a.chainID = res.chainID ∧
      a.name = (if res.resName = "GLY" then "CA" else "CB") ∧
      (∀ b ∈ l1, ¬ (b.resSeq = res.resSeq ∧ b.chainID = res.chainID ∧
        b.name = (if res.resName = "GLY" then "CA" else "CB"))) ∧
      (∃ i, c.resXyzKeyD res = (i, a.x, a.y, a.z)) ∧
      (dictGet? out.bsa_data_xyz (c.resXyzKeyD res)).isSome := by
  obtain ⟨hall, hbd, hbx, _, _, _⟩ := c.sasa_ok_inv cutoff out hok
  obtain ⟨h1, h2, h3⟩ := hall res hres
  obtain ⟨i, hi⟩ := Option.isSome_iff_exists.mp h2
  obtain ⟨a, ha⟩ := Option.isSome_iff_exists.mp h3
  have hhead := ha
  unfold BSA.anchorAtom? at hhead
  obtain ⟨l1, l2, hsplit, hpa, hneg⟩ := head?_filter_eq_some hhead
  have hp := of_decide_eq_true hpa
  refine ⟨l1, a, l2, hsplit, hp.1, hp.2.1, ?_, ?_, ⟨i, ?_⟩, ?_⟩
  · simpa [anchorName] using hp.2.2
  · intro b hb hcontra
    have := hneg b hb
    rw [decide_eq_false_iff_not] at this
    exact this ⟨hcontra.1, hcontra.2.1, by simpa [anchorName] using hcontra.2.2⟩
  · unfold BSA.resXyzKeyD
    rw [hi, ha]
  · rw [hbx]
    exact foldIns_isSome_of_mem _ _ hres []

/-- C5 instance: residue 1 of chain A in `exW` has two CB records; the
loop anchors at the first one, and the glycine residue anchors at CA. -/
theorem BSA.anchor_first_match_instance :
    (∃ l1 a l2, exW.atoms = l1 ++ a :: l2 ∧
      a.resSeq = (⟨"A", 1, "ALA"⟩ : ResKey).resSeq ∧
      a.chainID = (⟨"A", 1, "ALA"⟩ : ResKey).chainID ∧
      a.name = (if (⟨"A", 1, "ALA"⟩ : ResKey).resName = "GLY"
        then "CA" else "CB") ∧
      (∀ b ∈ l1, ¬ (b.resSeq = (⟨"A", 1, "ALA"⟩ : ResKey).resSeq ∧
        b.chainID = (⟨"A", 1, "ALA"⟩ : ResKey).chainID ∧
        b.name = (if (⟨"A", 1, "ALA"⟩ : ResKey).resName = "GLY"
          then "CA" else "CB"))) ∧
      (∃ i, exW.resXyzKeyD ⟨"A", 1, "ALA"⟩ = (i, a.x, a.y, a.z)) ∧
      (dictGet? exOut.bsa_data_xyz
        (exW.resXyzKeyD ⟨"A", 1, "ALA"⟩)).isSome) ∧
    exW.anchorAtom? ⟨"A", 1, "ALA"⟩ = some ⟨"CB", "ALA", 1, "A", 1, 1, 1⟩ ∧
    exW.anchorAtom? ⟨"A", 2, "GLY"⟩ = some ⟨"CA", "GLY", 2, "A", 2, 2, 2⟩ := by
  have h := BSA.anchor_first_match exW (11/2) exOut ⟨"A", 1, "ALA"⟩
    (by decide) (by decide)
  exact ⟨h, by decide, by decide⟩

/-- C6 counterexample: with the configured chain labels swapped
(`chainA = "B"`, `chainB = "A"`), the contact residue of chain `B` — whose
label equals the FIRST configured chain label — is stored with chain
index 1, not 0: the index comes from the hard-coded table, not from the
configured order. -/
theorem BSA.chain_index_not_configured_order :
    swapW.chainA = "B" ∧
    (⟨"B", 1, "LEU"⟩ : ResKey).chainID = swapW.chainA ∧
    (⟨"B", 1, "LEU"⟩ : ResKey) ∈ swapW.ctcList (11/2) ∧
    swapW.get_contact_residue_sasa (11/2) = .ok swapOut ∧
    dictGet? swapOut.bsa_data_xyz ((1 : Int), 4, 4, 4) = some [2] ∧
    dictGet? swapOut.bsa_data_xyz ((0 : Int), 4, 4, 4) = none := by decide

/-- C6 amended: the chain index of the anchor key is drawn from the
hard-coded table mapping label `"A"` to 0 and `"B"` to 1, independent of
the configured chain labels, and the anchor key is the tuple
`(chainIndex, x, y, z)` of the anchor atom. -/
theorem BSA.chain_index_hardcoded (c : BSA) (cutoff : ℚ)
    (out : FeatureOutput) (res : ResKey)
    (hok : c.get_contact_residue_sasa cutoff = .ok out)
    (hres : res ∈ c.ctcList cutoff) :
    ∃ i a, chainIdx? res.chainID = some i ∧
      (res.chainID = "A" → i = 0) ∧ (res.chainID = "B" → i = 1) ∧
      c.anchorAtom? res = some a ∧
      c.resXyzKeyD res = (i, a.x, a.y, a.z) ∧
      (dictGet? out.bsa_data_xyz (i, a.x, a.y, a.z)).isSome := by
  obtain ⟨hall, hbd, hbx, _, _, _⟩ := c.sasa_ok_inv cutoff out hok
  obtain ⟨h1, h2, h3⟩ := hall res hres
  obtain ⟨i, hi⟩ := Option.isSome_iff_exists.mp h2
  obtain ⟨a, ha⟩ := Option.isSome_iff_exists.mp h3
  have hkey : c.resXyzKeyD res = (i, a.x, a.y, a.z) := by
    unfold BSA.resXyzKeyD
    rw [hi, ha]
  refine ⟨i, a, hi, ?_, ?_, ha, hkey, ?_⟩
  · intro hA
    unfold chainIdx? at hi
    rw [if_pos hA] at hi
    exact (Option.some.inj hi).symm
  · intro hB
    unfold chainIdx? at hi
    rw [if_neg (by rw [hB]; decide), if_pos hB] at hi
    exact (Option.some.inj hi).symm
  · rw [hbx, ← hkey]
    exact foldIns_isSome_of_mem _ _ hres []

/-- C6 amended instance: the chain-A serine residue of `exW` is stored
under index 0 with its CB coordinates. -/
theorem BSA.chain_index_hardcoded_instance :
    ∃ i a, chainIdx? (⟨"A", 3, "SER"⟩ : ResKey).chainID = some i ∧
      ((⟨"A", 3, "SER"⟩ : ResKey).chainID = "A" → i = 0) ∧
      ((⟨"A", 3, "SER"⟩ : ResKey).chainID = "B" → i = 1) ∧
      exW.anchorAtom? ⟨"A", 3, "SER"⟩ = some a ∧
      exW.resXyzKeyD ⟨"A", 3, "SER"⟩ = (i, a.x, a.y, a.z) ∧
      (dictGet? exOut.bsa_data_xyz (i, a.x, a.y, a.z)).isSome :=
  BSA.chain_index_hardcoded exW (11/2) exOut ⟨"A", 3, "SER"⟩
    (by decide) (by decide)

/-- The two-column formatter returns a string of length exactly two on
inputs of length at most two. -/
theorem fmtRightAlign2_length (s : String) (h : s.length ≤ 2) :
    (fmtRightAlign2 s).length = 2 := by
  unfold fmtRightAlign2
  by_cases h2 : s.length < 2
  · rw [if_pos h2, String.length_append]
    have hm : (String.mk (List.replicate (2 - s.length) ' ')).length =
        (List.replicate (2 - s.length) ' ').length := rfl
    rw [hm, List.length_replicate]
    omega
  · rw [if_neg h2]
    omega

/-- `pyFirstChar` returns at most one character. -/
theorem pyFirstChar_length (s : String) : (pyFirstChar s).length ≤ 1 := by
  unfold pyFirstChar
  have hm : (String.mk (s.data.take 1)).length = (s.data.take 1).length := rfl
  rw [hm]
  simp

/-- C8: every atom added to a surface-area-engine structure by
`get_structure` — in the complex set and in each isolated-chain set —
carries an atom-name field derived from the first character of the source
atom's name, formatted into a two-column field. -/
theorem get_structure_element_first_char (pdbIsStr : Bool)
    (atoms : List AtomRecord) (chainsLabel : List String) :
    (∀ ea ∈ (get_structure pdbIsStr atoms chainsLabel).complexAdded,
      ∃ a ∈ atoms, ea = mkEngineAtom a ∧
        ea.atomName = fmtRightAlign2 (pyFirstChar a.name) ∧
        ea.atomName.length = 2) ∧
    (∀ ch ∈ (get_structure pdbIsStr atoms chainsLabel).chains, ∀ ea ∈ ch.2,
      ∃ a ∈ atoms, a.chainID = ch.1 ∧ ea = mkEngineAtom a ∧
        ea.atomName = fmtRightAlign2 (pyFirstChar a.name) ∧
        ea.atomName.length = 2) := by
  constructor
  · intro ea hea
    simp only [get_structure] at hea
    by_cases hstr : pdbIsStr
    · rw [if_pos hstr] at hea
      exact absurd hea (List.not_mem_nil ea)
    · rw [if_neg hstr] at hea
      obtain ⟨a, haa, heq⟩ := List.mem_map.mp hea
      refine ⟨a, haa, heq.symm, by rw [← heq]; rfl, ?_⟩
      rw [← heq]
      exact fmtRightAlign2_length _ (le_trans (pyFirstChar_length _) (by omega))
  · intro ch hch ea hea
    simp only [get_structure] at hch
    obtain ⟨label, hlabel, hcheq⟩ := List.mem_map.mp hch
    rw [← hcheq] at hea
    obtain ⟨a, haa, heq⟩ := List.mem_map.mp hea
    refine ⟨a, List.mem_of_mem_filter haa, ?_, heq.symm, by rw [← heq]; rfl, ?_⟩
    · rw [← hcheq]
      simpa using List.of_mem_filter haa
    · rw [← heq]
      exact fmtRightAlign2_length _ (le_trans (pyFirstChar_length _) (by omega))

/-- C8 instance: the single nitrogen atom's element field is the padded
first character of its name. -/
theorem get_structure_element_first_char_instance :
    (∃ a ∈ c8atoms,
      mkEngineAtom (⟨"N", "ALA", 1, "A", 0, 0, 0⟩ : AtomRecord) =
        mkEngineAtom a ∧
      (mkEngineAtom (⟨"N", "ALA", 1, "A", 0, 0, 0⟩ : AtomRecord)).atomName =
        fmtRightAlign2 (pyFirstChar a.name) ∧
      (mkEngineAtom
        (⟨"N", "ALA", 1, "A", 0, 0, 0⟩ : AtomRecord)).atomName.length = 2) ∧
    (mkEngineAtom (⟨"N", "ALA", 1, "A", 0, 0, 0⟩ : AtomRecord)).atomName =
      " N" := by
  have h := (get_structure_element_first_char false c8atoms ["A", "B"]).1
    (mkEngineAtom ⟨"N", "ALA", 1, "A", 0, 0, 0⟩) (by decide)
  exact ⟨h, by decide⟩
